import Mathlib

/-!
Shallow embedding of `src/csim.c` (an LRU cache simulator) and verification of
the specification claims about it.

Modelling conventions:
* Machine pointers to `cache_block` nodes are modelled by allocation identities
  (`id : Nat`), handed out by a strictly increasing allocation counter, so two
  live (or leaked) nodes never share an `id`; pointer equality is `id` equality.
  The C program never compares a pointer against a block that has been passed to
  `free` (the only freed blocks are the victims of the multi-node branch of
  `cache_set_remove_tail`, and `head`/`curr`/`tail` never retain them), so this
  is a faithful model of pointer identity.
* The singly linked chain hanging off `head` is modelled as a `List cache_block`
  in chain order; `next` of a node is the following list entry (`NULL` at the
  end).  The `curr` and `tail` pointer fields are modelled as `Option Nat`
  (`none` = `NULL`), which allows them to dangle (point at a node that is no
  longer in the chain), exactly as in the C program.
* Undefined behaviour (dereferencing `NULL` or a dangling pointer, a pointer
  walk running off the chain, reading uninitialised memory) is modelled by
  `Option`: a result of `none` means the C program has crashed or gone
  undefined.
* C `int` values are modelled as `Int`; the 32-bit wrap-around of `int`
  arithmetic in the final report lines 422-423 is modelled explicitly by
  `toInt32` (two's-complement wrap, which is what the compiled program does).
  The `unsigned long` event counters are modelled as `Nat` (they increase by at
  most one per trace event, so 64-bit wrap-around is unreachable for any
  realizable trace).
-/

namespace Csim

/-- Model of `cache_block` (csim.c lines 23-27): a tag and a dirty bit.  The
`next` pointer is represented by list position; `id` is the malloc identity of
the node (see the modelling conventions above). -/
structure cache_block where
  id : Nat
  tag : Nat
  dirty : Bool
deriving DecidableEq, Repr

/-- Model of `cache_set` (csim.c lines 32-37): the chain reachable from `head`
(in order), the `curr` and `tail` pointers as allocation identities, and the
tracked `size` field (a C `int`). -/
structure cache_set where
  blocks : List cache_block
  curr : Option Nat
  size : Int
  tail : Option Nat
deriving DecidableEq, Repr

/-- Model of `new_cache_block` (lines 44-55) when `malloc` succeeds: tag set,
dirty bit cleared, next = NULL (it joins no chain yet).  `id` is the fresh
malloc identity.  The `malloc` failure path returns NULL; call sites model that
by passing `none` instead of `some (new_cache_block ..)`. -/
def new_cache_block (id tag : Nat) : cache_block :=
  { id := id, tag := tag, dirty := false }

/-- Model of `new_cache_set` (lines 61-73) when `malloc` succeeds:
`head = NULL`, `curr = head`, `size = 0`, `tail = head`. -/
def new_cache_set : cache_set :=
  { blocks := [], curr := none, size := 0, tail := none }

/-- Model of `cache_set_insert_head` (lines 80-87).  The `if (set)` guard is
satisfied at every call site in `main` (the sets of the cache array are never
NULL), so the set argument is passed directly; the block argument keeps its
`Option` because `main` passes the unchecked result of `new_cache_block` here.
`block->next = set->head; set->head = block` is consing onto the chain;
`set->curr = set->head` and `set->size++` are as written.  A NULL `block`
dereferences `block->next`: undefined behaviour, modelled by `none`. -/
def cache_set_insert_head (set : cache_set) (block : Option cache_block) :
    Option cache_set :=
  match block with
  | none => none
  | some blk =>
      some { blocks := blk :: set.blocks
             curr := some blk.id
             size := set.size + 1
             tail := set.tail }

/-- Pointer walk of `cache_set_remove_current` branches 2 and 3 (lines 103-106
and 112-114): `pointer` starts at `head` and advances until
`pointer->next == stop`.  Returns `(nodes strictly before pointer, the node
pointer rests on, the chain after pointer)`; the head of the third component is
the node `stop` designates (absent exactly when `stop` is NULL).  Walking off
the end of the chain (so that `pointer` becomes NULL and `pointer->next` is
dereferenced) is undefined behaviour: `none`. -/
def walk_to_prev : List cache_block → Option Nat → Option (List cache_block × cache_block × List cache_block)
  | [], _ => none
  | a :: rest, stop =>
      if rest.head?.map (fun blk => blk.id) = stop then some ([], a, rest)
      else
        match walk_to_prev rest stop with
        | none => none
        | some (pre, p, post) => some (a :: pre, p, post)

/-- Model of `cache_set_remove_current` (lines 94-123).  The `if (set)` guard is
satisfied at every call site in `main`.  Returns the updated set and the block
pointer `saved` (which the C code may legitimately leave NULL in the degenerate
branch-2 case).  Branch order follows the source: head first, then tail, then
the middle walk. -/
def cache_set_remove_current (set : cache_set) :
    Option (cache_set × Option cache_block) :=
  if set.blocks.head?.map (fun blk => blk.id) = set.curr then
    -- lines 98-101: saved = head; head = head->next; curr = head
    match set.blocks with
    | [] => none  -- head and curr are both NULL: `set->head->next` dereferences NULL
    | a :: rest =>
        some ({ set with blocks := rest
                         curr := rest.head?.map (fun blk => blk.id)
                         size := set.size - 1 }, some a)
  else if set.tail = set.curr then
    -- lines 102-110: walk to the node before tail, detach everything after it
    match walk_to_prev set.blocks set.tail with
    | none => none
    | some (pre, p, post) =>
        some ({ set with blocks := pre ++ [p]
                         curr := some p.id
                         size := set.size - 1
                         tail := some p.id }, post.head?)
  else
    -- lines 111-118: walk to the node before curr and unlink curr
    match walk_to_prev set.blocks set.curr with
    | none => none
    | some (pre, p, post) =>
        match post with
        | [] => none  -- pointer->next is NULL here, so pointer->next->next dereferences NULL
        | saved :: post2 =>
            some ({ set with blocks := pre ++ p :: post2
                             size := set.size - 1 }, some saved)

/-- Model of `cache_set_remove_tail` (lines 129-144).  The `if (set)` guard is
satisfied at every call site.  With a NULL `head` the test `set->head->next`
dereferences NULL (`none`).  In the single-node branch the node is only
unlinked, not freed, and neither `tail` nor `size` is updated; in the
multi-node branch the last node is freed and `tail` is repointed, and `size` is
again not decremented. -/
def cache_set_remove_tail (set : cache_set) : Option cache_set :=
  match set.blocks with
  | [] => none
  | [_] => some { set with blocks := [] }
  | a :: b :: rest =>
      let kept := (a :: b :: rest).dropLast
      some { set with blocks := kept
                      tail := kept.getLast?.map (fun blk => blk.id) }

/-- Model of `cache_set_size` (lines 151-156), guard exactly as written:
`if (set || set->head == set->tail) return 0; return set->size;`.
For a non-NULL `set` the left operand of `||` is already true, so the function
returns 0; for a NULL `set` the short-circuit falls through to evaluating
`set->head`, dereferencing NULL (`none`). -/
def cache_set_size (set : Option cache_set) : Option Int :=
  match set with
  | some st =>
      if true || (st.blocks.head?.map (fun blk => blk.id) = st.tail) then some 0
      else some st.size
  | none => none

/-- Modelled from the spec (design note in section 9): the intended contract of
the set-size getter — "return 0 for a null or empty set, else the tracked
size."  This definition follows the spec's words and is compared against the
source's `cache_set_size` above. -/
def cache_set_size_spec (set : Option cache_set) : Int :=
  match set with
  | none => 0
  | some st => if st.blocks = [] then 0 else st.size

/-- Model of `set_dirty` (lines 203-207): only a `'S'` operation touches the
block, so a NULL block is dereferenced exactly when the operation is `'S'`. -/
def set_dirty (block : Option cache_block) (op : Char) : Option (Option cache_block) :=
  if op = 'S' then
    match block with
    | none => none
    | some blk => some (some { blk with dirty := true })
  else some block

/-- Model of `dirty_tail` (lines 213-219): walk `pointer` from `head` to the
last node of the chain and read its dirty bit.  A NULL `head` means
`pointer->next` dereferences NULL (`none`). -/
def dirty_tail (set : cache_set) : Option Bool :=
  match set.blocks.getLast? with
  | none => none
  | some blk => some blk.dirty

/-- Model of `count_dirty` (lines 226-236): number of resident blocks across
all sets whose dirty flag is set. -/
def count_dirty (cache : List cache_set) : Nat :=
  (cache.map (fun st => st.blocks.countP (fun blk => blk.dirty))).sum

/-- Set-index decode of `main` line 332: `(address >> b) & (S - 1)`. -/
def which_set_index (S b : Nat) (address : Nat) : Nat :=
  (address >>> b) &&& (S - 1)

/-- Tag decode of `main` line 333: `address >> (b + s)`. -/
def which_cache_line (s b : Nat) (address : Nat) : Nat :=
  address >>> (b + s)

/-- Model of the lookup loop of `main` (lines 338-350): scan the chain for a
block with the matched tag; on a match, advance `curr` to it, unlink it with
`cache_set_remove_current`, apply `set_dirty`, and reinsert it at the head.
The C `for` loop keeps walking the mutated chain after a match (from the
promoted block's successor, i.e. the already-scanned prefix followed by the
unscanned suffix), so under per-set tag uniqueness — proved below to hold in
every reachable state — at most one promotion fires, at the first match, which
is what this definition computes. -/
def walk_curr_aux : List cache_block → Nat → Option (Option Nat)
  | [], _ => none  -- curr dangles outside the chain: reading curr->next is undefined
  | a :: rest, target =>
      if a.id = target then some (some target)
      else
        match rest with
        | [] => none  -- curr = a->next = NULL; the loop re-enters and NULL->next is dereferenced
        | _ :: _ => walk_curr_aux rest target

/-- The suffix of the chain starting at the node `curr` points to (the C walk
`curr = curr->next` moves along exactly this suffix). -/
def suffix_from : List cache_block → Nat → Option (List cache_block)
  | [], _ => none
  | a :: rest, c => if a.id = c then some (a :: rest) else suffix_from rest c

/-- Model of the `while (cache[which_set]->curr != pointer)` walk of lines
341-343: `curr` advances along its suffix of the chain until it reaches the
matched node's identity `target`; returns the final value of `curr`.  A NULL or
dangling `curr` that has not yet reached `target` dereferences `curr->next`:
undefined behaviour (`none`). -/
def walk_curr (l : List cache_block) (curr : Option Nat) (target : Nat) :
    Option (Option Nat) :=
  match curr with
  | none => none
  | some c =>
      if c = target then some (some c)
      else
        match suffix_from l c with
        | none => none
        | some sfx => walk_curr_aux sfx target

/-- The whole hit-scan of lines 338-350 on one set: returns the updated set and
the `found` flag. -/
def csim_scan (set : cache_set) (tag : Nat) (op : Char) :
    Option (cache_set × Bool) :=
  match set.blocks.find? (fun blk => blk.tag == tag) with
  | none => some (set, false)
  | some blk =>
      match walk_curr set.blocks set.curr blk.id with
      | none => none
      | some curr1 =>
          match cache_set_remove_current { set with curr := curr1 } with
          | none => none
          | some (set1, ru_block) =>
              match set_dirty ru_block op with
              | none => none
              | some ru2 =>
                  match cache_set_insert_head set1 ru2 with
                  | none => none
                  | some set2 => some (set2, true)

/-- Model of the miss path of `main` (lines 352-374), with the result of
`new_cache_block` made explicit: `alloc = none` models `malloc` returning NULL
(the C code never checks it).  Returns the updated set, the updated
`dirty_eviction` counter, and the `missed`/`evicted` flags.  In the non-evicting
branch `set_dirty(new_block, operator)` runs after the block is already linked
in at the head, so the dirty write lands on the head node of the updated set.
In the evicting branch the victim's dirty bit is read (`dirty_tail`) before
`cache_set_remove_tail` frees it, and the new block's dirty bit is assigned by
the explicit `if`/`else if` of lines 366-370 (which dereferences a NULL block
only for `'L'`/`'S'`). -/
def csim_miss_path (E : Int) (op : Char) (set : cache_set)
    (alloc : Option cache_block) (de : Nat) :
    Option (cache_set × Nat × Bool × Bool) :=
  if set.size < E then
    match cache_set_insert_head set alloc with
    | none => none
    | some set1 =>
        let set2 :=
          if op = 'S' then
            { set1 with blocks :=
                match set1.blocks with
                | [] => []
                | a :: r => { a with dirty := true } :: r }
          else set1
        some (set2, de, true, false)
  else
    match dirty_tail set with
    | none => none
    | some dt =>
        let de2 := if dt then de + 1 else de
        match
          (match alloc with
           | none =>
               -- a NULL new_block is dereferenced by `new_block->dirty = ...`
               -- exactly when the operation is 'L' or 'S'
               if op = 'L' then none
               else if op = 'S' then none
               else some none
           | some nb =>
               if op = 'L' then some (some { nb with dirty := false })
               else if op = 'S' then some (some { nb with dirty := true })
               else some (some nb)) with
        | none => none
        | some nb2 =>
            match cache_set_remove_tail set with
            | none => none
            | some set1 =>
                match cache_set_insert_head set1 nb2 with
                | none => none
                | some set2 => some (set2, de2, false, true)

/-- An access event of the trace: operation character, address, size (the size
is read but unused by the policy). -/
structure access_event where
  op : Char
  address : Nat
  size : Int
deriving DecidableEq, Repr

/-- The mutable state of `main`'s simulation loop: the cache array, the malloc
identity counter, and the four `unsigned long` counters (`dirty_eviction` here
is the pre-scaling eviction count of line 363). -/
structure sim_state where
  cache : List cache_set
  alloc_ctr : Nat
  hit : Nat
  miss : Nat
  eviction : Nat
  dirty_eviction : Nat
deriving DecidableEq, Repr

/-- Result of the classification switch of lines 377-409. -/
inductive classify_result where
  | counts (dh dm dev : Nat) (msg : String)
  | invalid
deriving DecidableEq, Repr

/-- Model of the switch on `operator` (lines 377-409).  For `'S'` and `'L'`
the three flags select the counter increments and the verbose message; any
other character sets `invalid_operator`.  If none of the flags is set the
message `msg` stays uninitialised (modelled `none`); this situation is proved
unreachable below. -/
def csim_classify (op : Char) (found missed evicted : Bool) :
    Option classify_result :=
  if op = 'S' then
    if found then some (.counts 1 0 0 "hit")
    else if missed then some (.counts 0 1 0 "miss")
    else if evicted then some (.counts 0 1 1 "miss eviction")
    else none
  else if op = 'L' then
    if found then some (.counts 1 0 0 "hit")
    else if missed then some (.counts 0 1 0 "miss")
    else if evicted then some (.counts 0 1 1 "miss eviction")
    else none
  else some .invalid

/-- Outcome of processing one trace event. -/
inductive step_result where
  | next (st : sim_state) (msg : String)
  | invalid_op (c : Char)
deriving DecidableEq, Repr

/-- One iteration of the event loop of `main` (lines 329-420): decode the
address, run the hit-scan, on a miss run the miss path (allocating a fresh
block), store the updated set back, and only then classify the outcome — the
invalid-operator check of lines 378-415 runs after the cache has already been
mutated.  On `invalid_op` the C code frees the whole cache, prints the
offending character and returns without a summary. -/
def csim_step (E : Int) (s b S : Nat) (st : sim_state) (ev : access_event) :
    Option step_result :=
  let ws := which_set_index S b ev.address
  let tag := which_cache_line s b ev.address
  match st.cache[ws]? with
  | none => none
  | some set0 =>
      match csim_scan set0 tag ev.op with
      | none => none
      | some (set1, found) =>
          match
            (if found then some (set1, st.alloc_ctr, st.dirty_eviction, false, false)
             else
               match csim_miss_path E ev.op set1
                       (some (new_cache_block st.alloc_ctr tag)) st.dirty_eviction with
               | none => none
               | some (set2, de2, missed, evicted) =>
                   some (set2, st.alloc_ctr + 1, de2, missed, evicted)) with
          | none => none
          | some (set2, ctr2, de2, missed, evicted) =>
              match csim_classify ev.op found missed evicted with
              | none => none
              | some .invalid => some (.invalid_op ev.op)
              | some (.counts dh dm dev msg) =>
                  some (.next { cache := st.cache.set ws set2
                                alloc_ctr := ctr2
                                hit := st.hit + dh
                                miss := st.miss + dm
                                eviction := st.eviction + dev
                                dirty_eviction := de2 } msg)

/-- The event loop of `main`: process events in order, collecting the verbose
outcome messages; an invalid operator aborts the loop (`Sum.inr` carries the
offending character). -/
def csim_run_loop (E : Int) (s b S : Nat) :
    sim_state → List access_event → Option ((sim_state × List String) ⊕ Char)
  | st, [] => some (.inl (st, []))
  | st, ev :: rest =>
      match csim_step E s b S st ev with
      | none => none
      | some (.invalid_op c) => some (.inr c)
      | some (.next st1 msg) =>
          match csim_run_loop E s b S st1 rest with
          | none => none
          | some (.inr c) => some (.inr c)
          | some (.inl (st2, msgs)) => some (.inl (st2, msg :: msgs))

/-- The final statistics record handed to `printSummary` (lines 426-436). -/
structure csim_stats where
  hits : Nat
  misses : Nat
  evictions : Nat
  dirty_bytes : Nat
  dirty_evictions : Nat
deriving DecidableEq, Repr

/-- Overall result of a run: a printed summary, or the fatal invalid-operation
abort (cache freed, character reported, no summary). -/
inductive run_result where
  | summary (stats : csim_stats)
  | invalid_op (c : Char)
deriving DecidableEq, Repr

/-- Two's-complement wrap of an integer into the range of a 32-bit C `int`
(this is what the compiled program's `int` arithmetic does on overflow). -/
def toInt32 (n : Int) : Int := (n + 2 ^ 31) % 2 ^ 32 - 2 ^ 31

/-- Line 422: `(unsigned long)(count_dirty(cache, S) * (1 << b))`.  Both
`count_dirty`'s result and `1 << b` are C `int`s, the product is computed in
32-bit `int` arithmetic, and only then converted to `unsigned long`
(reduction mod 2^64). -/
def dirty_byte_report (cnt : Nat) (b : Nat) : Nat :=
  (toInt32 (toInt32 (cnt : Int) * toInt32 ((2 : Int) ^ b)) % (2 : Int) ^ 64).toNat

/-- Line 423: `(unsigned long)(dirty_eviction * (1 << b))`.  `dirty_eviction`
is already `unsigned long`; the `int` value `1 << b` is converted to
`unsigned long` and the product is taken mod 2^64. -/
def dirty_eviction_report (cnt : Nat) (b : Nat) : Nat :=
  (cnt * (toInt32 ((2 : Int) ^ b) % (2 : Int) ^ 64).toNat) % 2 ^ 64

/-- The freshly built cache (lines 297-308 with every allocation succeeding):
`S = 1 << s` empty sets, and the simulation counters zeroed (lines 325-326). -/
def init_state (s : Nat) : sim_state :=
  { cache := List.replicate (1 <<< s) new_cache_set
    alloc_ctr := 0
    hit := 0
    miss := 0
    eviction := 0
    dirty_eviction := 0 }

/-- A whole run of `main`'s core on validated geometry `(s, E, b)` and a parsed
trace, every allocation succeeding: build the cache, replay the events, and
either abort on an invalid operation (no summary) or produce the summary of
lines 422-432. -/
def csim_run (s : Nat) (E : Int) (b : Nat) (events : List access_event) :
    Option run_result :=
  let S := 1 <<< s
  match csim_run_loop E s b S (init_state s) events with
  | none => none
  | some (.inr c) => some (.invalid_op c)
  | some (.inl (st, _msgs)) =>
      some (.summary
        { hits := st.hit
          misses := st.miss
          evictions := st.eviction
          dirty_bytes := dirty_byte_report (count_dirty st.cache) b
          dirty_evictions := dirty_eviction_report st.dirty_eviction b })

/-- Specification-side predicate: the event `ev`, applied to state `st`, is a
miss into a full set whose least-recently-used (last) block is dirty — i.e.,
this event evicts a dirty victim.  Read off the pre-state only. -/
def victim_is_dirty (E : Int) (s b S : Nat) (st : sim_state) (ev : access_event) : Bool :=
  match st.cache[which_set_index S b ev.address]? with
  | none => false
  | some set0 =>
      !(set0.blocks.any (fun blk => blk.tag == which_cache_line s b ev.address)) &&
      !(decide (set0.size < E)) &&
      ((set0.blocks.getLast?.map (fun blk => blk.dirty)).getD false)

/-- Specification-side count of evictions with a dirty victim over a trace,
recomputed from pre-states rather than read from the program's incremental
counter. -/
def spec_dirty_evictions (E : Int) (s b S : Nat) :
    sim_state → List access_event → Nat
  | _, [] => 0
  | st, ev :: rest =>
      (if victim_is_dirty E s b S st ev then 1 else 0) +
        match csim_step E s b S st ev with
        | some (.next st1 _) => spec_dirty_evictions E s b S st1 rest
        | _ => 0

/-- Well-formedness of one cache set, relative to the malloc counter `ctr` and
the associativity `E`.  These are the invariants of every reachable state:
`curr` equals `head`; tags and node identities are duplicate-free; identities
are below the malloc counter; `tail` is NULL, or points at the last node of
the chain, or dangles outside the chain; and the tracked `size` field equals
the chain length until the first eviction, after which the chain length is
pinned at `E` while `size` keeps growing (see claim C1). -/
structure set_wf (E : Int) (ctr : Nat) (st : cache_set) : Prop where
  curr_head : st.curr = st.blocks.head?.map (fun blk => blk.id)
  tags_nodup : (st.blocks.map (fun blk => blk.tag)).Nodup
  ids_nodup : (st.blocks.map (fun blk => blk.id)).Nodup
  ids_lt : ∀ blk ∈ st.blocks, blk.id < ctr
  tail_ok : st.tail = none ∨ st.tail = st.blocks.getLast?.map (fun blk => blk.id) ∨
      (∀ blk ∈ st.blocks, some blk.id ≠ st.tail)
  tail_lt : ∀ t, st.tail = some t → t < ctr
  len_le : (st.blocks.length : Int) ≤ E
  size_ok : st.size = st.blocks.length ∨
      ((st.blocks.length : Int) = E ∧ E ≤ st.size)

/-- Well-formedness of the whole simulation state. -/
def sim_wf (E : Int) (st : sim_state) : Prop :=
  ∀ set0 ∈ st.cache, set_wf E st.alloc_ctr set0

/-- Value of the `tail` pointer after a hit promotion of `blk`, where `pre` is
the part of the chain in front of `blk`: the head and middle branches of
`cache_set_remove_current` leave `tail` alone, the tail branch repoints it at
the predecessor (the last node of `pre`). -/
def promoted_tail (set : cache_set) (blk : cache_block)
    (pre : List cache_block) : Option Nat :=
  if pre = [] then set.tail
  else if set.tail = some blk.id then pre.getLast?.map (fun b => b.id)
  else set.tail

/-- Helper: the suffix starting at the head node is the whole chain. -/
theorem suffix_from_head (a : cache_block) (l : List cache_block) :
    suffix_from (a :: l) a.id = some (a :: l) := by
  simp [suffix_from]

/-- Helper: the curr walk reaches any identity present in the chain suffix. -/
theorem walk_curr_aux_reaches (l : List cache_block) (t : Nat)
    (h : t ∈ l.map (fun blk => blk.id)) : walk_curr_aux l t = some (some t) := by
  induction l with
  | nil => simp at h
  | cons a rest ih =>
      by_cases ha : a.id = t
      · simp [walk_curr_aux, ha]
      · have ht : t ∈ rest.map (fun blk => blk.id) := by
          rcases List.mem_map.mp h with ⟨x, hx, hxt⟩
          rcases List.mem_cons.mp hx with rfl | hx2
          · exact absurd hxt ha
          · exact List.mem_map.mpr ⟨x, hx2, hxt⟩
        cases rest with
        | nil => simp at ht
        | cons c rest2 => simpa [walk_curr_aux, ha] using ih ht

/-- Helper: starting from the head (the reachable-state value of `curr`), the
promotion walk of lines 341-343 terminates at any block of the chain. -/
theorem walk_curr_from_head (l : List cache_block) (t : Nat)
    (h : t ∈ l.map (fun blk => blk.id)) :
    walk_curr l (l.head?.map (fun blk => blk.id)) t = some (some t) := by
  cases l with
  | nil => simp at h
  | cons a rest =>
      by_cases ha : a.id = t
      · simp [walk_curr, ha]
      · simp only [List.head?_cons, Option.map_some', walk_curr, if_neg ha,
          suffix_from_head]
        exact walk_curr_aux_reaches _ t h

/-- Helper: the predecessor walk of `cache_set_remove_current` stops at the
node just before the first occurrence of the stop identity. -/
theorem walk_to_prev_spec (pre : List cache_block) (p y : cache_block)
    (ys : List cache_block)
    (hy : y.id ∉ (pre ++ [p]).map (fun blk => blk.id)) :
    walk_to_prev ((pre ++ [p]) ++ y :: ys) (some y.id) = some (pre, p, y :: ys) := by
  induction pre with
  | nil => simp [walk_to_prev]
  | cons a pre ih =>
      have hy' : y.id ∉ (pre ++ [p]).map (fun blk => blk.id) := by
        intro hc
        apply hy
        rcases List.mem_map.mp hc with ⟨x, hx, hxt⟩
        exact List.mem_map.mpr ⟨x, List.mem_cons_of_mem a hx, hxt⟩
      obtain ⟨h0, hh0⟩ : ∃ h0, (pre ++ [p]).head? = some h0 := by
        cases pre <;> simp
      have hmem : h0 ∈ pre ++ [p] := List.mem_of_mem_head? (by simp [hh0])
      have hid : h0.id ≠ y.id := fun hc =>
        hy' (List.mem_map.mpr ⟨h0, hmem, hc⟩)
      have hrest : ((pre ++ [p]) ++ y :: ys).head? = some h0 := by
        rw [List.head?_append, hh0]; rfl
      have hcond : ((pre ++ [p]) ++ y :: ys).head?.map (fun blk => blk.id)
          ≠ some y.id := by
        rw [hrest]
        simpa using hid
      simp only [List.cons_append, walk_to_prev, List.append_eq]
      rw [if_neg hcond, ih hy']

/-- Helper: in a duplicate-free chain whose last node is designated by the
tail pointer of the decomposition's middle node, nothing can follow that
node. -/
theorem post_nil_of_tail_last (pre : List cache_block) (blk : cache_block)
    (post : List cache_block)
    (hnd : ((pre ++ blk :: post).map (fun b => b.id)).Nodup)
    (hlast : (pre ++ blk :: post).getLast?.map (fun b => b.id) = some blk.id) :
    post = [] := by
  cases post with
  | nil => rfl
  | cons c post2 =>
      exfalso
      obtain ⟨g, hgl⟩ : ∃ g, (c :: post2).getLast? = some g :=
        ⟨(c :: post2).getLast (by simp), List.getLast?_eq_getLast _ (by simp)⟩
      have hgm : g ∈ c :: post2 := by
        rw [List.getLast?_eq_getLast (c :: post2) (by simp)] at hgl
        injection hgl with h
        exact h ▸ List.getLast_mem _
      have hassoc : pre ++ blk :: c :: post2 = (pre ++ [blk]) ++ c :: post2 :=
        List.append_cons pre blk (c :: post2)
      rw [hassoc] at hnd hlast
      rw [List.getLast?_append, hgl] at hlast
      have hgid : g.id = blk.id := by simpa using hlast
      rw [List.map_append] at hnd
      exact List.disjoint_of_nodup_append hnd
        (List.mem_map.mpr ⟨blk, by simp, rfl⟩)
        (List.mem_map.mpr ⟨g, hgm, hgid⟩)

/-- Characterization of `cache_set_remove_current` when `curr` designates the
head node (branch 1, lines 98-101). -/
theorem remove_current_head (set : cache_set) (blk : cache_block)
    (post : List cache_block) (hb : set.blocks = blk :: post)
    (hc : set.curr = some blk.id) :
    cache_set_remove_current set =
      some ({ set with blocks := post
                       curr := post.head?.map (fun b => b.id)
                       size := set.size - 1 }, some blk) := by
  unfold cache_set_remove_current
  rw [hb, hc]
  simp

/-- Characterization of `cache_set_remove_current` when `curr` and `tail` both
designate the last node of a multi-node chain (branch 2, lines 102-110). -/
theorem remove_current_last (set : cache_set) (pre2 : List cache_block)
    (p blk : cache_block)
    (hb : set.blocks = (pre2 ++ [p]) ++ [blk])
    (hc : set.curr = some blk.id) (ht : set.tail = some blk.id)
    (hy : blk.id ∉ (pre2 ++ [p]).map (fun b => b.id)) :
    cache_set_remove_current set =
      some ({ set with blocks := pre2 ++ [p]
                       curr := some p.id
                       size := set.size - 1
                       tail := some p.id }, some blk) := by
  unfold cache_set_remove_current
  rw [hb, hc, ht]
  have hcond : ((pre2 ++ [p]) ++ [blk]).head?.map (fun b => b.id)
      ≠ some blk.id := by
    obtain ⟨h0, hh0⟩ : ∃ h0, (pre2 ++ [p]).head? = some h0 := by
      cases pre2 <;> simp
    have hm0 : h0 ∈ pre2 ++ [p] := List.mem_of_mem_head? (by simp [hh0])
    rw [List.head?_append, hh0]
    simpa using fun hc2 => hy (List.mem_map.mpr ⟨h0, hm0, hc2⟩)
  rw [if_neg hcond, if_pos rfl, walk_to_prev_spec pre2 p blk [] hy]
  rfl

/-- Characterization of `cache_set_remove_current` when `curr` designates a
node that is neither the head nor the one `tail` designates (branch 3, lines
111-118). -/
theorem remove_current_middle (set : cache_set) (pre2 : List cache_block)
    (p blk : cache_block) (post : List cache_block)
    (hb : set.blocks = (pre2 ++ [p]) ++ blk :: post)
    (hc : set.curr = some blk.id) (ht : set.tail ≠ some blk.id)
    (hy : blk.id ∉ (pre2 ++ [p]).map (fun b => b.id)) :
    cache_set_remove_current set =
      some ({ set with blocks := pre2 ++ p :: post
                       size := set.size - 1 }, some blk) := by
  unfold cache_set_remove_current
  rw [hb, hc]
  have hcond : ((pre2 ++ [p]) ++ blk :: post).head?.map (fun b => b.id)
      ≠ some blk.id := by
    obtain ⟨h0, hh0⟩ : ∃ h0, (pre2 ++ [p]).head? = some h0 := by
      cases pre2 <;> simp
    have hm0 : h0 ∈ pre2 ++ [p] := List.mem_of_mem_head? (by simp [hh0])
    rw [List.head?_append, hh0]
    simpa using fun hc2 => hy (List.mem_map.mpr ⟨h0, hm0, hc2⟩)
  rw [if_neg hcond, if_neg ht, walk_to_prev_spec pre2 p blk post hy]

/-- Helper: when no block carries the looked-up tag, the scan of lines 338-350
performs no mutation at all. -/
theorem csim_scan_not_found (set : cache_set) (tag : Nat) (op : Char)
    (hfind : set.blocks.find? (fun b => b.tag == tag) = none) :
    csim_scan set tag op = some (set, false) := by
  unfold csim_scan
  rw [hfind]

/-- Helper: a successful scan promotes the (unique) matched block to the head,
applying the store dirty-write, decrementing and re-incrementing `size`, and
adjusting `tail` per `promoted_tail`; the rest of the chain keeps its order. -/
theorem csim_scan_found (E : Int) (ctr : Nat) (set : cache_set) (tag : Nat)
    (op : Char) (blk : cache_block) (pre post : List cache_block)
    (hwf : set_wf E ctr set)
    (hfind : set.blocks.find? (fun b => b.tag == tag) = some blk)
    (hb : set.blocks = pre ++ blk :: post) :
    csim_scan set tag op =
      some ({ set with
              blocks := { blk with dirty := if op = 'S' then true else blk.dirty }
                  :: (pre ++ post)
              curr := some blk.id
              tail := promoted_tail set blk pre }, true) := by
  have hmem : blk ∈ set.blocks := List.mem_of_find?_eq_some hfind
  have hidmem : blk.id ∈ set.blocks.map (fun b => b.id) :=
    List.mem_map.mpr ⟨blk, hmem, rfl⟩
  have hwalk : walk_curr set.blocks set.curr blk.id = some (some blk.id) := by
    rw [hwf.curr_head]
    exact walk_curr_from_head _ _ hidmem
  have hnd : ((pre ++ blk :: post).map (fun b => b.id)).Nodup := hb ▸ hwf.ids_nodup
  have hy : blk.id ∉ pre.map (fun b => b.id) := by
    intro hcontra
    have h2 := hb ▸ hwf.ids_nodup
    rw [List.map_append, List.nodup_append] at h2
    exact h2.2.2 hcontra (by simp)
  unfold csim_scan
  rw [hfind]
  dsimp only
  rw [hwalk]
  dsimp only
  cases pre with
  | nil =>
      rw [remove_current_head { set with curr := some blk.id } blk post hb rfl]
      by_cases hS : op = 'S' <;>
        simp [set_dirty, cache_set_insert_head, promoted_tail, hS,
          Int.sub_add_cancel]
  | cons q pre1 =>
      have hpne : q :: pre1 ≠ [] := by simp
      have hdecomp : q :: pre1 =
          (q :: pre1).dropLast ++ [(q :: pre1).getLast hpne] :=
        (List.dropLast_append_getLast hpne).symm
      have hy2 : blk.id ∉
          ((q :: pre1).dropLast ++ [(q :: pre1).getLast hpne]).map
            (fun b => b.id) := by
        rw [← hdecomp]; exact hy
      by_cases htail : set.tail = some blk.id
      · -- tail branch: blk is the last node, so post must be empty
        have hpost : post = [] := by
          rcases hwf.tail_ok with h1 | h2 | h3
          · exact absurd (h1 ▸ htail) (by simp)
          · refine post_nil_of_tail_last (q :: pre1) blk post hnd ?_
            rw [← hb, ← h2, htail]
          · exact absurd htail.symm (h3 blk hmem)
        subst hpost
        have hb2 : set.blocks =
            ((q :: pre1).dropLast ++ [(q :: pre1).getLast hpne]) ++ [blk] := by
          rw [← hdecomp]; exact hb
        rw [remove_current_last { set with curr := some blk.id }
          ((q :: pre1).dropLast) ((q :: pre1).getLast hpne) blk hb2 rfl htail hy2]
        have hlast : (q :: pre1).getLast? = some ((q :: pre1).getLast hpne) :=
          List.getLast?_eq_getLast _ hpne
        by_cases hS : op = 'S' <;>
          simp [set_dirty, cache_set_insert_head, promoted_tail, hS, htail,
            Int.sub_add_cancel, hlast, ← hdecomp]
      · -- middle branch: tail stays put and the chain closes over the gap
        have hb2 : set.blocks =
            ((q :: pre1).dropLast ++ [(q :: pre1).getLast hpne]) ++ blk :: post := by
          rw [← hdecomp]; exact hb
        rw [remove_current_middle { set with curr := some blk.id }
          ((q :: pre1).dropLast) ((q :: pre1).getLast hpne) blk post hb2 rfl htail hy2]
        have hflat : (q :: pre1).dropLast ++ (q :: pre1).getLast hpne :: post =
            (q :: pre1) ++ post := by
          rw [List.append_cons, ← hdecomp]
        by_cases hS : op = 'S' <;>
          simp [set_dirty, cache_set_insert_head, promoted_tail, hS, htail,
            Int.sub_add_cancel, hflat]

/-- Helper: a nonempty right part decides the last element of an append. -/
theorem getLast_append_cons (l1 : List cache_block) (x : cache_block)
    (l2 : List cache_block) :
    (l1 ++ x :: l2).getLast? = (x :: l2).getLast? := by
  rw [List.getLast?_append]
  cases h : (x :: l2).getLast? with
  | none => simp at h
  | some g => rfl

/-- Helper: promoting a block to the head of its set preserves every set
invariant (the malloc counter is untouched by a hit). -/
theorem set_wf_promoted (E : Int) (ctr : Nat) (set : cache_set)
    (blk : cache_block) (d : Bool) (pre post : List cache_block)
    (hwf : set_wf E ctr set)
    (hb : set.blocks = pre ++ blk :: post) :
    set_wf E ctr { set with
      blocks := { blk with dirty := d } :: (pre ++ post)
      curr := some blk.id
      tail := promoted_tail set blk pre } := by
  have hmem : blk ∈ set.blocks := by rw [hb]; simp
  have hperm_tags : (set.blocks.map fun b => b.tag).Perm
      ((({ blk with dirty := d } : cache_block) :: (pre ++ post)).map
        fun b => b.tag) := by
    rw [hb]
    simp only [List.map_append, List.map_cons]
    exact List.perm_middle
  have hperm_ids : (set.blocks.map fun b => b.id).Perm
      ((({ blk with dirty := d } : cache_block) :: (pre ++ post)).map
        fun b => b.id) := by
    rw [hb]
    simp only [List.map_append, List.map_cons]
    exact List.perm_middle
  have hlen : (({ blk with dirty := d } : cache_block) :: (pre ++ post)).length
      = set.blocks.length := by
    rw [hb]; simp; omega
  refine ⟨?_, ?_, ?_, ?_, ?_, ?_, ?_, ?_⟩
  · rfl
  · exact hperm_tags.nodup_iff.mp hwf.tags_nodup
  · exact hperm_ids.nodup_iff.mp hwf.ids_nodup
  · intro b hbm
    rcases List.mem_cons.mp hbm with rfl | hin
    · exact hwf.ids_lt blk hmem
    · rcases List.mem_append.mp hin with h | h
      · exact hwf.ids_lt b (by rw [hb]; simp [h])
      · exact hwf.ids_lt b (by rw [hb]; simp [h])
  · -- tail_ok
    show promoted_tail set blk pre = none ∨ _ ∨ _
    rcases List.eq_nil_or_concat pre with hpre | ⟨pre1, q, hpre⟩
    · subst hpre
      simp only [promoted_tail, if_pos rfl]
      rcases hwf.tail_ok with h1 | h2 | h3
      · exact Or.inl h1
      · refine Or.inr (Or.inl ?_)
        rw [h2, hb]
        cases post with
        | nil => simp
        | cons c post2 => simp [getLast_append_cons]
      · refine Or.inr (Or.inr ?_)
        intro b hbm
        rcases List.mem_cons.mp hbm with rfl | hin
        · exact h3 blk hmem
        · refine h3 b ?_
          rw [hb]
          simp only [List.nil_append, List.mem_cons]
          exact Or.inr (by simpa using hin)
    · have hpre_ne : pre ≠ [] := by rw [hpre]; simp
      by_cases htl : set.tail = some blk.id
      · -- blk is the last node: nothing follows it
        have hpost : post = [] := by
          rcases hwf.tail_ok with h1 | h2 | h3
          · rw [h1] at htl; exact absurd htl (by simp)
          · exact post_nil_of_tail_last pre blk post (hb ▸ hwf.ids_nodup)
              (by rw [← hb, ← h2, htl])
          · exact absurd htl.symm (h3 blk hmem)
        subst hpost
        simp only [promoted_tail, if_neg hpre_ne, if_pos htl]
        refine Or.inr (Or.inl ?_)
        rw [hpre, List.concat_eq_append]
        simp only [List.append_nil, List.getLast?_concat, Option.map_some']
        rw [← List.cons_append, List.getLast?_concat]
        rfl
      · simp only [promoted_tail, if_neg hpre_ne, if_neg htl]
        rcases hwf.tail_ok with h1 | h2 | h3
        · exact Or.inl h1
        · cases post with
          | nil =>
              exfalso
              rw [hb, List.getLast?_concat] at h2
              exact htl (by simpa using h2)
          | cons c post2 =>
              refine Or.inr (Or.inl ?_)
              rw [h2, hb, getLast_append_cons, List.getLast?_cons_cons,
                ← List.cons_append, getLast_append_cons]
        · refine Or.inr (Or.inr ?_)
          intro b hbm
          rcases List.mem_cons.mp hbm with rfl | hin
          · exact h3 blk hmem
          · rcases List.mem_append.mp hin with h | h
            · exact h3 b (by rw [hb]; simp [h])
            · exact h3 b (by rw [hb]; simp [h])
  · -- tail_lt
    intro t htt
    rcases List.eq_nil_or_concat pre with hpre | ⟨pre1, q, hpre⟩
    · subst hpre
      simp only [promoted_tail, if_pos rfl] at htt
      exact hwf.tail_lt t htt
    · have hpre_ne : pre ≠ [] := by rw [hpre]; simp
      by_cases htl : set.tail = some blk.id
      · simp only [promoted_tail, if_neg hpre_ne, if_pos htl] at htt
        rcases Option.map_eq_some'.mp htt with ⟨g, hg, hgt⟩
        have hgm : g ∈ pre := by
          have hne2 : pre ≠ [] := hpre_ne
          rw [List.getLast?_eq_getLast pre hne2] at hg
          injection hg with h
          exact h ▸ List.getLast_mem hne2
        exact hgt ▸ hwf.ids_lt g (by rw [hb]; simp [hgm])
      · simp only [promoted_tail, if_neg hpre_ne, if_neg htl] at htt
        exact hwf.tail_lt t htt
  · show ((_ : List cache_block).length : Int) ≤ E
    rw [hlen]
    exact hwf.len_le
  · show set.size = _ ∨ _
    rcases hwf.size_ok with h | ⟨h1, h2⟩
    · exact Or.inl (by rw [hlen]; exact h)
    · exact Or.inr ⟨by rw [hlen]; exact h1, h2⟩

/-- Helper: the non-evicting miss path (size < E) links a fresh block at the
head; `set_dirty` then marks the head block for a store (lines 353-358). -/
theorem csim_miss_path_insert (E : Int) (op : Char) (set : cache_set)
    (ctr tag de : Nat) (hlt : set.size < E) :
    csim_miss_path E op set (some (new_cache_block ctr tag)) de =
      some ({ blocks := ⟨ctr, tag, decide (op = 'S')⟩ :: set.blocks
              curr := some ctr
              size := set.size + 1
              tail := set.tail }, de, true, false) := by
  by_cases hS : op = 'S' <;>
    simp [csim_miss_path, hlt, cache_set_insert_head, new_cache_block, hS]

/-- Helper: the evicting miss path (size ≥ E, chain nonempty): record the
victim's dirty bit, unlink the tail (without touching `size`), and link the
fresh block at the head (lines 360-373). -/
theorem csim_miss_path_evict (E : Int) (op : Char) (set : cache_set)
    (ctr tag de : Nat) (hge : ¬ set.size < E) (hne : set.blocks ≠ []) :
    csim_miss_path E op set (some (new_cache_block ctr tag)) de =
      some ({ blocks := ⟨ctr, tag, decide (op = 'S')⟩ :: set.blocks.dropLast
              curr := some ctr
              size := set.size + 1
              tail := if set.blocks.length ≤ 1 then set.tail
                      else set.blocks.dropLast.getLast?.map (fun b => b.id) },
            (if (set.blocks.getLast?.map (fun b => b.dirty)).getD false
             then de + 1 else de),
            false, true) := by
  cases hbl : set.blocks with
  | nil => exact absurd hbl hne
  | cons a rest =>
      cases rest with
      | nil =>
          by_cases hS : op = 'S' <;> by_cases hL : op = 'L' <;>
            simp [csim_miss_path, hge, dirty_tail, hbl, cache_set_remove_tail,
              cache_set_insert_head, new_cache_block, hS, hL]
      | cons b2 rest2 =>
          obtain ⟨g, hg⟩ : ∃ g, (b2 :: rest2).getLast? = some g :=
            ⟨(b2 :: rest2).getLast (by simp), List.getLast?_eq_getLast _ (by simp)⟩
          by_cases hS : op = 'S' <;> by_cases hL : op = 'L' <;>
            simp [csim_miss_path, hge, dirty_tail, hbl, cache_set_remove_tail,
              cache_set_insert_head, new_cache_block, hS, hL,
              List.getLast?_cons_cons, hg]

/-- Helper: set invariants are monotone in the malloc counter. -/
theorem set_wf_mono (E : Int) {ctr ctr2 : Nat} (h : ctr ≤ ctr2)
    (st : cache_set) (hwf : set_wf E ctr st) : set_wf E ctr2 st :=
  ⟨hwf.curr_head, hwf.tags_nodup, hwf.ids_nodup,
   fun b hb => Nat.lt_of_lt_of_le (hwf.ids_lt b hb) h,
   hwf.tail_ok,
   fun t ht => Nat.lt_of_lt_of_le (hwf.tail_lt t ht) h,
   hwf.len_le, hwf.size_ok⟩

/-- Helper: a non-evicting insert preserves every set invariant (the malloc
counter advances past the fresh identity). -/
theorem set_wf_insert_fresh (E : Int) (ctr : Nat) (set : cache_set)
    (tag : Nat) (d : Bool) (hwf : set_wf E ctr set) (hlt : set.size < E)
    (htag : ∀ b ∈ set.blocks, b.tag ≠ tag) :
    set_wf E (ctr + 1)
      { blocks := ⟨ctr, tag, d⟩ :: set.blocks
        curr := some ctr
        size := set.size + 1
        tail := set.tail } := by
  have hsz : set.size = set.blocks.length := by
    rcases hwf.size_ok with h | ⟨h1, h2⟩
    · exact h
    · exact absurd hlt (by omega)
  refine ⟨rfl, ?_, ?_, ?_, ?_, ?_, ?_, ?_⟩
  · refine List.nodup_cons.mpr ⟨?_, hwf.tags_nodup⟩
    intro hc
    rcases List.mem_map.mp hc with ⟨b, hbm, hbt⟩
    exact htag b hbm hbt
  · refine List.nodup_cons.mpr ⟨?_, hwf.ids_nodup⟩
    intro hc
    rcases List.mem_map.mp hc with ⟨b, hbm, hbt⟩
    have hbt2 : b.id = ctr := hbt
    exact Nat.lt_irrefl ctr (hbt2 ▸ hwf.ids_lt b hbm)
  · intro b hbm
    rcases List.mem_cons.mp hbm with rfl | hin
    · exact Nat.lt_succ_self ctr
    · exact Nat.lt_succ_of_lt (hwf.ids_lt b hin)
  · rcases hwf.tail_ok with h1 | h2 | h3
    · exact Or.inl h1
    · cases hbl : set.blocks with
      | nil =>
          rw [hbl] at h2
          exact Or.inl (by simpa using h2)
      | cons a rest =>
          refine Or.inr (Or.inl ?_)
          rw [h2, hbl, List.getLast?_cons_cons]
    · refine Or.inr (Or.inr ?_)
      intro b hbm
      rcases List.mem_cons.mp hbm with rfl | hin
      · intro hc
        have := hwf.tail_lt ctr hc.symm
        omega
      · exact h3 b hin
  · intro t ht
    exact Nat.lt_succ_of_lt (hwf.tail_lt t ht)
  · show ((set.blocks.length + 1 : Nat) : Int) ≤ E
    push_cast
    rw [← hsz]
    omega
  · left
    show set.size + 1 = ((set.blocks.length + 1 : Nat) : Int)
    push_cast
    rw [← hsz]

/-- Helper: an evicting insert preserves every set invariant: the chain length
is pinned at `E` (one node removed, one inserted) while the tracked `size`
keeps growing. -/
theorem set_wf_evicted (E : Int) (ctr : Nat) (set : cache_set) (tag : Nat)
    (d : Bool) (hwf : set_wf E ctr set) (hge : ¬ set.size < E) (hE : 1 ≤ E)
    (htag : ∀ b ∈ set.blocks, b.tag ≠ tag) :
    set_wf E (ctr + 1)
      { blocks := ⟨ctr, tag, d⟩ :: set.blocks.dropLast
        curr := some ctr
        size := set.size + 1
        tail := if set.blocks.length ≤ 1 then set.tail
                else set.blocks.dropLast.getLast?.map (fun b => b.id) } := by
  have hlenE : (set.blocks.length : Int) = E := by
    rcases hwf.size_ok with h | ⟨h1, h2⟩
    · have := hwf.len_le
      omega
    · exact h1
  have hne : set.blocks ≠ [] := by
    intro hc
    rw [hc] at hlenE
    simp at hlenE
    omega
  have hsub : set.blocks.dropLast.Sublist set.blocks := List.dropLast_sublist _
  have hmem_drop : ∀ b ∈ set.blocks.dropLast, b ∈ set.blocks :=
    fun b hb => hsub.mem hb
  refine ⟨rfl, ?_, ?_, ?_, ?_, ?_, ?_, ?_⟩
  · refine List.nodup_cons.mpr ⟨?_, (hwf.tags_nodup).sublist (hsub.map _)⟩
    intro hc
    rcases List.mem_map.mp hc with ⟨b, hbm, hbt⟩
    exact htag b (hmem_drop b hbm) hbt
  · refine List.nodup_cons.mpr ⟨?_, (hwf.ids_nodup).sublist (hsub.map _)⟩
    intro hc
    rcases List.mem_map.mp hc with ⟨b, hbm, hbt⟩
    have hbt2 : b.id = ctr := hbt
    exact Nat.lt_irrefl ctr (hbt2 ▸ hwf.ids_lt b (hmem_drop b hbm))
  · intro b hbm
    rcases List.mem_cons.mp hbm with rfl | hin
    · exact Nat.lt_succ_self ctr
    · exact Nat.lt_succ_of_lt (hwf.ids_lt b (hmem_drop b hin))
  · by_cases hlen1 : set.blocks.length ≤ 1
    · -- single-node chain: it is unlinked, tail keeps its old value
      have hdrop : set.blocks.dropLast = [] := by
        cases hbl : set.blocks with
        | nil => rfl
        | cons a rest =>
            rw [hbl] at hlen1
            cases rest with
            | nil => rfl
            | cons c r2 => simp at hlen1
      rw [if_pos hlen1, hdrop]
      refine Or.inr (Or.inr ?_)
      intro b hbm
      rcases List.mem_cons.mp hbm with rfl | hin
      · intro hc
        have := hwf.tail_lt ctr hc.symm
        omega
      · simp at hin
    · rw [if_neg hlen1]
      have hdne : set.blocks.dropLast ≠ [] := by
        intro hc
        have := List.length_dropLast set.blocks
        rw [hc] at this
        simp at this
        omega
      obtain ⟨c, r2, hcr⟩ : ∃ c r2, set.blocks.dropLast = c :: r2 := by
        cases hd : set.blocks.dropLast with
        | nil => exact absurd hd hdne
        | cons c r2 => exact ⟨c, r2, rfl⟩
      refine Or.inr (Or.inl ?_)
      rw [hcr, List.getLast?_cons_cons]
  · intro t ht
    by_cases hlen1 : set.blocks.length ≤ 1
    · rw [if_pos hlen1] at ht
      exact Nat.lt_succ_of_lt (hwf.tail_lt t ht)
    · rw [if_neg hlen1] at ht
      rcases Option.map_eq_some'.mp ht with ⟨g, hg, hgt⟩
      have hgm : g ∈ set.blocks.dropLast := by
        have hdne : set.blocks.dropLast ≠ [] := by
          intro hc
          rw [hc] at hg
          simp at hg
        rw [List.getLast?_eq_getLast _ hdne] at hg
        injection hg with h
        exact h ▸ List.getLast_mem hdne
      exact hgt ▸ Nat.lt_succ_of_lt (hwf.ids_lt g (hmem_drop g hgm))
  · show ((_ : List cache_block).length : Int) ≤ E
    have := List.length_dropLast set.blocks
    have hlp : 1 ≤ set.blocks.length := by
      cases hbl : set.blocks with
      | nil => exact absurd hbl hne
      | cons a rest => simp
    simp only [List.length_cons, this]
    push_cast
    omega
  · right
    constructor
    · show ((_ : List cache_block).length : Int) = E
      have := List.length_dropLast set.blocks
      have hlp : 1 ≤ set.blocks.length := by
        cases hbl : set.blocks with
        | nil => exact absurd hbl hne
        | cons a rest => simp
      simp only [List.length_cons, this]
      push_cast
      omega
    · show E ≤ set.size + 1
      omega

/-- Helper: one event-loop iteration from a well-formed state: an invalid
operation is detected (after the mutation) and aborts; a valid operation
produces a next state that is again well-formed, with the dirty-eviction
counter advanced exactly when the event evicts a dirty victim. -/
theorem csim_step_spec (E : Int) (s b S : Nat) (st : sim_state)
    (ev : access_event) (hE : 1 ≤ E) (hwf : sim_wf E st)
    (hlen : st.cache.length = S) (hS : S = 1 <<< s) :
    (¬ (ev.op = 'L' ∨ ev.op = 'S') →
      csim_step E s b S st ev = some (.invalid_op ev.op)) ∧
    ((ev.op = 'L' ∨ ev.op = 'S') →
      ∃ st1 msg, csim_step E s b S st ev = some (.next st1 msg) ∧
        sim_wf E st1 ∧ st1.cache.length = S ∧
        st1.dirty_eviction = st.dirty_eviction +
          (if victim_is_dirty E s b S st ev then 1 else 0)) := by
  have hws : which_set_index S b ev.address < st.cache.length := by
    rw [hlen, hS]
    unfold which_set_index
    rw [Nat.shiftLeft_eq, one_mul, Nat.and_pow_two_sub_one_eq_mod]
    exact Nat.mod_lt _ (Nat.two_pow_pos s)
  obtain ⟨set0, hget⟩ :
      ∃ set0, st.cache[which_set_index S b ev.address]? = some set0 :=
    ⟨_, List.getElem?_eq_getElem hws⟩
  have hwf0 : set_wf E st.alloc_ctr set0 := hwf set0 (List.getElem?_mem hget)
  cases hfind : set0.blocks.find?
      (fun blk => blk.tag == which_cache_line s b ev.address) with
  | some blk =>
      have hmem : blk ∈ set0.blocks := List.mem_of_find?_eq_some hfind
      obtain ⟨pre, post, hb⟩ := List.append_of_mem hmem
      have hscan := csim_scan_found E st.alloc_ctr set0
        (which_cache_line s b ev.address) ev.op blk pre post hwf0 hfind hb
      have hwf2 := set_wf_promoted E st.alloc_ctr set0 blk
        (if ev.op = 'S' then true else blk.dirty) pre post hwf0 hb
      have hp := List.find?_some hfind
      have hany : set0.blocks.any
          (fun blk2 => blk2.tag == which_cache_line s b ev.address) = true :=
        List.any_eq_true.mpr ⟨blk, hmem, hp⟩
      have hvic : victim_is_dirty E s b S st ev = false := by
        unfold victim_is_dirty
        rw [hget]
        simp [hany]
      have hstep0 : csim_step E s b S st ev =
          match csim_classify ev.op true false false with
          | none => none
          | some .invalid => some (.invalid_op ev.op)
          | some (.counts dh dm dev msg) =>
              some (.next { cache := st.cache.set
                              (which_set_index S b ev.address)
                              ({ set0 with
                                 blocks := { blk with dirty :=
                                     if ev.op = 'S' then true else blk.dirty }
                                     :: (pre ++ post)
                                 curr := some blk.id
                                 tail := promoted_tail set0 blk pre })
                            alloc_ctr := st.alloc_ctr
                            hit := st.hit + dh
                            miss := st.miss + dm
                            eviction := st.eviction + dev
                            dirty_eviction := st.dirty_eviction } msg) := by
        unfold csim_step
        dsimp only
        rw [hget]
        dsimp only
        rw [hscan]
        dsimp only
        rw [if_pos rfl]
      constructor
      · intro hinv
        rw [hstep0]
        have h1 : ev.op ≠ 'S' := fun hc => hinv (Or.inr hc)
        have h2 : ev.op ≠ 'L' := fun hc => hinv (Or.inl hc)
        simp [csim_classify, h1, h2]
      · intro hvalid
        have hclass : csim_classify ev.op true false false =
            some (.counts 1 0 0 "hit") := by
          rcases hvalid with h | h <;> simp [csim_classify, h]
        refine ⟨{ cache := st.cache.set (which_set_index S b ev.address)
                    ({ set0 with
                       blocks := { blk with dirty :=
                           if ev.op = 'S' then true else blk.dirty }
                           :: (pre ++ post)
                       curr := some blk.id
                       tail := promoted_tail set0 blk pre })
                  alloc_ctr := st.alloc_ctr
                  hit := st.hit + 1
                  miss := st.miss + 0
                  eviction := st.eviction + 0
                  dirty_eviction := st.dirty_eviction }, "hit", ?_, ?_, ?_, ?_⟩
        · rw [hstep0, hclass]
        · intro x hx
          rcases List.mem_or_eq_of_mem_set hx with hmem2 | rfl
          · exact hwf x hmem2
          · exact hwf2
        · simpa using hlen
        · simp [hvic]
  | none =>
      have hscan := csim_scan_not_found set0 (which_cache_line s b ev.address)
        ev.op hfind
      have htag_ne : ∀ b2 ∈ set0.blocks,
          b2.tag ≠ which_cache_line s b ev.address := by
        intro b2 hb2 hc
        have := List.find?_eq_none.mp hfind b2 hb2
        simp [hc] at this
      have hany : set0.blocks.any
          (fun blk2 => blk2.tag == which_cache_line s b ev.address) = false := by
        rw [← Bool.not_eq_true]
        intro hc
        rcases List.any_eq_true.mp hc with ⟨x, hx, hxt⟩
        exact htag_ne x hx (by simpa using hxt)
      by_cases hsize : set0.size < E
      · -- non-evicting insert
        have hmiss := csim_miss_path_insert E ev.op set0 st.alloc_ctr
          (which_cache_line s b ev.address) st.dirty_eviction hsize
        have hwf2 := set_wf_insert_fresh E st.alloc_ctr set0
          (which_cache_line s b ev.address) (decide (ev.op = 'S')) hwf0 hsize
          htag_ne
        have hvic : victim_is_dirty E s b S st ev = false := by
          unfold victim_is_dirty
          rw [hget]
          simp [hany, hsize]
        have hstep0 : csim_step E s b S st ev =
            match csim_classify ev.op false true false with
            | none => none
            | some .invalid => some (.invalid_op ev.op)
            | some (.counts dh dm dev msg) =>
                some (.next { cache := st.cache.set
                                (which_set_index S b ev.address)
                                { blocks := ⟨st.alloc_ctr,
                                      which_cache_line s b ev.address,
                                      decide (ev.op = 'S')⟩ :: set0.blocks
                                  curr := some st.alloc_ctr
                                  size := set0.size + 1
                                  tail := set0.tail }
                              alloc_ctr := st.alloc_ctr + 1
                              hit := st.hit + dh
                              miss := st.miss + dm
                              eviction := st.eviction + dev
                              dirty_eviction := st.dirty_eviction } msg) := by
          unfold csim_step
          dsimp only
          rw [hget]
          dsimp only
          rw [hscan]
          dsimp only
          rw [if_neg Bool.false_ne_true]
          rw [hmiss]
        constructor
        · intro hinv
          rw [hstep0]
          have h1 : ev.op ≠ 'S' := fun hc => hinv (Or.inr hc)
          have h2 : ev.op ≠ 'L' := fun hc => hinv (Or.inl hc)
          simp [csim_classify, h1, h2]
        · intro hvalid
          have hclass : csim_classify ev.op false true false =
              some (.counts 0 1 0 "miss") := by
            rcases hvalid with h | h <;> simp [csim_classify, h]
          refine ⟨{ cache := st.cache.set (which_set_index S b ev.address)
                      { blocks := ⟨st.alloc_ctr,
                            which_cache_line s b ev.address,
                            decide (ev.op = 'S')⟩ :: set0.blocks
                        curr := some st.alloc_ctr
                        size := set0.size + 1
                        tail := set0.tail }
                    alloc_ctr := st.alloc_ctr + 1
                    hit := st.hit + 0
                    miss := st.miss + 1
                    eviction := st.eviction + 0
                    dirty_eviction := st.dirty_eviction }, "miss",
                  ?_, ?_, ?_, ?_⟩
          · rw [hstep0, hclass]
          · intro x hx
            rcases List.mem_or_eq_of_mem_set hx with hmem2 | rfl
            · exact set_wf_mono E (Nat.le_succ _) x (hwf x hmem2)
            · exact hwf2
          · simpa using hlen
          · simp [hvic]
      · -- evicting insert
        have hne : set0.blocks ≠ [] := by
          intro hc
          have h0 : (set0.blocks.length : Int) = 0 := by rw [hc]; rfl
          rcases hwf0.size_ok with h | ⟨h1, h2⟩
          · rw [h, h0] at hsize
            omega
          · rw [h0] at h1
            omega
        have hmiss := csim_miss_path_evict E ev.op set0 st.alloc_ctr
          (which_cache_line s b ev.address) st.dirty_eviction hsize hne
        have hwf2 := set_wf_evicted E st.alloc_ctr set0
          (which_cache_line s b ev.address) (decide (ev.op = 'S')) hwf0 hsize
          hE htag_ne
        have hvic : victim_is_dirty E s b S st ev =
            (set0.blocks.getLast?.map (fun blk => blk.dirty)).getD false := by
          unfold victim_is_dirty
          rw [hget]
          simp [hany, hsize]
        have hstep0 : csim_step E s b S st ev =
            match csim_classify ev.op false false true with
            | none => none
            | some .invalid => some (.invalid_op ev.op)
            | some (.counts dh dm dev msg) =>
                some (.next { cache := st.cache.set
                                (which_set_index S b ev.address)
                                { blocks := ⟨st.alloc_ctr,
                                      which_cache_line s b ev.address,
                                      decide (ev.op = 'S')⟩
                                      :: set0.blocks.dropLast
                                  curr := some st.alloc_ctr
                                  size := set0.size + 1
                                  tail := if set0.blocks.length ≤ 1 then
                                        set0.tail
                                      else set0.blocks.dropLast.getLast?.map
                                        (fun b2 => b2.id) }
                              alloc_ctr := st.alloc_ctr + 1
                              hit := st.hit + dh
                              miss := st.miss + dm
                              eviction := st.eviction + dev
                              dirty_eviction :=
                                if (set0.blocks.getLast?.map
                                      (fun blk => blk.dirty)).getD false
                                then st.dirty_eviction + 1
                                else st.dirty_eviction } msg) := by
          unfold csim_step
          dsimp only
          rw [hget]
          dsimp only
          rw [hscan]
          dsimp only
          rw [if_neg Bool.false_ne_true]
          rw [hmiss]
        constructor
        · intro hinv
          rw [hstep0]
          have h1 : ev.op ≠ 'S' := fun hc => hinv (Or.inr hc)
          have h2 : ev.op ≠ 'L' := fun hc => hinv (Or.inl hc)
          simp [csim_classify, h1, h2]
        · intro hvalid
          have hclass : csim_classify ev.op false false true =
              some (.counts 0 1 1 "miss eviction") := by
            rcases hvalid with h | h <;> simp [csim_classify, h]
          refine ⟨{ cache := st.cache.set (which_set_index S b ev.address)
                      { blocks := ⟨st.alloc_ctr,
                            which_cache_line s b ev.address,
                            decide (ev.op = 'S')⟩ :: set0.blocks.dropLast
                        curr := some st.alloc_ctr
                        size := set0.size + 1
                        tail := if set0.blocks.length ≤ 1 then set0.tail
                            else set0.blocks.dropLast.getLast?.map
                              (fun b2 => b2.id) }
                    alloc_ctr := st.alloc_ctr + 1
                    hit := st.hit + 0
                    miss := st.miss + 1
                    eviction := st.eviction + 1
                    dirty_eviction :=
                      if (set0.blocks.getLast?.map
                            (fun blk => blk.dirty)).getD false
                      then st.dirty_eviction + 1
                      else st.dirty_eviction }, "miss eviction",
                  ?_, ?_, ?_, ?_⟩
          · rw [hstep0, hclass]
          · intro x hx
            rcases List.mem_or_eq_of_mem_set hx with hmem2 | rfl
            · exact set_wf_mono E (Nat.le_succ _) x (hwf x hmem2)
            · exact hwf2
          · simpa using hlen
          · rw [hvic]
            cases hdt : (set0.blocks.getLast?.map
                (fun blk => blk.dirty)).getD false <;> simp

/-- Helper: the freshly built cache is well-formed. -/
theorem init_state_wf (E : Int) (s : Nat) (hE : 1 ≤ E) :
    sim_wf E (init_state s) ∧ (init_state s).cache.length = 1 <<< s := by
  constructor
  · intro set0 hs
    have hrep : set0 = new_cache_set := List.eq_of_mem_replicate hs
    subst hrep
    refine ⟨rfl, by simp [new_cache_set], by simp [new_cache_set],
      by simp [new_cache_set], Or.inl rfl, by simp [new_cache_set], ?_, ?_⟩
    · show ((0 : Nat) : Int) ≤ E
      omega
    · exact Or.inl rfl
  · simp [init_state]

/-- Helper: the event loop preserves well-formedness, and the program's
incremental dirty-eviction counter equals the specification-side recount of
evictions with a dirty victim. -/
theorem run_loop_wf (E : Int) (s b S : Nat) (hS : S = 1 <<< s) (hE : 1 ≤ E) :
    ∀ (evs : List access_event) (st : sim_state), sim_wf E st →
      st.cache.length = S →
      ∀ st2 msgs, csim_run_loop E s b S st evs = some (.inl (st2, msgs)) →
        sim_wf E st2 ∧ st2.cache.length = S ∧
        st2.dirty_eviction = st.dirty_eviction +
          spec_dirty_evictions E s b S st evs := by
  intro evs
  induction evs with
  | nil =>
      intro st hwf hlen st2 msgs hrun
      simp only [csim_run_loop, Option.some.injEq, Sum.inl.injEq,
        Prod.mk.injEq] at hrun
      obtain ⟨h1, h2⟩ := hrun
      subst h1
      exact ⟨hwf, hlen, by simp [spec_dirty_evictions]⟩
  | cons ev rest ih =>
      intro st hwf hlen st2 msgs hrun
      by_cases hvalid : ev.op = 'L' ∨ ev.op = 'S'
      · obtain ⟨st1, msg, hstep, hwf1, hlen1, hde⟩ :=
          (csim_step_spec E s b S st ev hE hwf hlen hS).2 hvalid
        simp only [csim_run_loop] at hrun
        rw [hstep] at hrun
        dsimp only at hrun
        cases hrest : csim_run_loop E s b S st1 rest with
        | none => rw [hrest] at hrun; simp at hrun
        | some r =>
            cases r with
            | inr c => rw [hrest] at hrun; simp at hrun
            | inl p =>
                obtain ⟨st3, msgs3⟩ := p
                rw [hrest] at hrun
                simp only [Option.some.injEq, Sum.inl.injEq,
                  Prod.mk.injEq] at hrun
                obtain ⟨h1, h2⟩ := hrun
                subst h1
                obtain ⟨hwf2, hlen2, hde2⟩ := ih st1 hwf1 hlen1 st3 msgs3 hrest
                refine ⟨hwf2, hlen2, ?_⟩
                simp only [spec_dirty_evictions]
                rw [hstep]
                rw [hde2, hde]
                cases hv : victim_is_dirty E s b S st ev <;> simp [hv]
                all_goals omega
      · have hstep := (csim_step_spec E s b S st ev hE hwf hlen hS).1 hvalid
        simp only [csim_run_loop] at hrun
        rw [hstep] at hrun
        simp at hrun

/-- Helper: splitting the event loop at a prefix that runs to completion. -/
theorem run_loop_append (E : Int) (s b S : Nat) :
    ∀ (evs1 : List access_event) (st st1 : sim_state) (msgs : List String)
      (evs2 : List access_event),
      csim_run_loop E s b S st evs1 = some (.inl (st1, msgs)) →
      csim_run_loop E s b S st (evs1 ++ evs2) =
        match csim_run_loop E s b S st1 evs2 with
        | none => none
        | some (.inr c) => some (.inr c)
        | some (.inl (st2, msgs2)) => some (.inl (st2, msgs ++ msgs2)) := by
  intro evs1
  induction evs1 with
  | nil =>
      intro st st1 msgs evs2 h
      simp only [csim_run_loop, Option.some.injEq, Sum.inl.injEq,
        Prod.mk.injEq] at h
      obtain ⟨h1, h2⟩ := h
      subst h1
      subst h2
      cases hr : csim_run_loop E s b S st evs2 with
      | none => simp [hr]
      | some r =>
          cases r with
          | inr c => simp [hr]
          | inl p => cases p with
              | mk st2 msgs2 => simp [hr]
  | cons ev rest ih =>
      intro st st1 msgs evs2 h
      simp only [csim_run_loop] at h
      cases hstep : csim_step E s b S st ev with
      | none => rw [hstep] at h; simp at h
      | some r =>
          cases r with
          | invalid_op c => rw [hstep] at h; simp at h
          | next sta msg =>
              rw [hstep] at h
              dsimp only at h
              cases hr : csim_run_loop E s b S sta rest with
              | none => rw [hr] at h; simp at h
              | some r2 =>
                  cases r2 with
                  | inr c => rw [hr] at h; simp at h
                  | inl p =>
                      obtain ⟨stb, msgsb⟩ := p
                      rw [hr] at h
                      simp only [Option.some.injEq, Sum.inl.injEq,
                        Prod.mk.injEq] at h
                      obtain ⟨h1, h2⟩ := h
                      subst h1
                      subst h2
                      show csim_run_loop E s b S st (ev :: (rest ++ evs2)) = _
                      simp only [csim_run_loop]
                      rw [hstep]
                      dsimp only
                      rw [ih sta stb msgsb evs2 hr]
                      cases hr2 : csim_run_loop E s b S stb evs2 with
                      | none => rfl
                      | some r3 =>
                          cases r3 with
                          | inr c => rfl
                          | inl p2 => cases p2 with
                              | mk st3 msgs3 => rfl

/-- Helper: `toInt32` is the identity on values representable in a 32-bit
int. -/
theorem toInt32_eq_self (n : Int) (h0 : 0 ≤ n) (h1 : n < 2 ^ 31) :
    toInt32 n = n := by
  unfold toInt32
  rw [Int.emod_eq_of_lt (by omega) (by omega)]
  omega

/-- Helper: when the dirty-byte product fits in a 32-bit int, line 422
reports the exact value. -/
theorem dirty_byte_report_exact (cnt b : Nat) (h : cnt * 2 ^ b < 2 ^ 31) :
    dirty_byte_report cnt b = 2 ^ b * cnt := by
  cases hc : cnt with
  | zero =>
      have h0 : toInt32 0 = 0 := by norm_num [toInt32]
      simp [dirty_byte_report, h0]
  | succ n =>
      subst hc
      have hbpos : (1 : Nat) ≤ 2 ^ b := Nat.one_le_two_pow
      have hprodZ : ((n + 1 : Nat) : Int) * (2 : Int) ^ b < 2 ^ 31 := by
        have hcast : (((n + 1) * 2 ^ b : Nat) : Int) < ((2 ^ 31 : Nat) : Int) := by
          exact_mod_cast h
        push_cast at hcast ⊢
        linarith [hcast]
      have hcnt31 : ((n + 1 : Nat) : Int) < 2 ^ 31 := by
        have hle : ((n + 1 : Nat) : Int) ≤ ((n + 1 : Nat) : Int) * (2 : Int) ^ b := by
          have hone : (1 : Int) ≤ (2 : Int) ^ b := by
            have := pow_pos (show (0 : Int) < 2 by norm_num) b
            omega
          nlinarith [Int.natCast_nonneg (n + 1)]
        linarith [hle, hprodZ]
      have hpow31 : ((2 : Int)) ^ b < 2 ^ 31 := by
        have hle : (2 : Int) ^ b ≤ ((n + 1 : Nat) : Int) * (2 : Int) ^ b := by
          have h1c : (1 : Int) ≤ ((n + 1 : Nat) : Int) := by push_cast; omega
          nlinarith [pow_pos (show (0:Int) < 2 by norm_num) b]
        linarith [hle, hprodZ]
      have hprod_nonneg : (0 : Int) ≤ ((n + 1 : Nat) : Int) * (2 : Int) ^ b :=
        mul_nonneg (Int.natCast_nonneg _) (by positivity)
      unfold dirty_byte_report
      rw [toInt32_eq_self ((n + 1 : Nat) : Int) (Int.natCast_nonneg _) hcnt31,
        toInt32_eq_self ((2 : Int) ^ b) (by positivity) hpow31,
        toInt32_eq_self _ hprod_nonneg hprodZ,
        Int.emod_eq_of_lt hprod_nonneg
          (hprodZ.trans (by norm_num : (2 : Int) ^ 31 < 2 ^ 64))]
      rw [show ((n + 1 : Nat) : Int) * (2 : Int) ^ b
          = (((n + 1) * 2 ^ b : Nat) : Int) by push_cast; ring]
      rw [Int.toNat_natCast]
      ring

/-- Helper: when the dirty-eviction-byte product fits in a 32-bit int, line
423 reports the exact value. -/
theorem dirty_eviction_report_exact (cnt b : Nat) (h : cnt * 2 ^ b < 2 ^ 31) :
    dirty_eviction_report cnt b = 2 ^ b * cnt := by
  cases hc : cnt with
  | zero => simp [dirty_eviction_report]
  | succ n =>
      subst hc
      have hbpos : (1 : Nat) ≤ 2 ^ b := Nat.one_le_two_pow
      have hpow31 : ((2 : Int)) ^ b < 2 ^ 31 := by
        have hpow31n : (2 : Nat) ^ b < 2 ^ 31 := by
          calc (2 : Nat) ^ b ≤ (n + 1) * 2 ^ b :=
                Nat.le_mul_of_pos_left _ (by omega)
            _ < 2 ^ 31 := h
        exact_mod_cast hpow31n
      unfold dirty_eviction_report
      rw [toInt32_eq_self ((2 : Int) ^ b) (by positivity) hpow31,
        Int.emod_eq_of_lt (by positivity)
          (hpow31.trans (by norm_num : (2 : Int) ^ 31 < 2 ^ 64)),
        show ((2 : Int) ^ b) = (((2 ^ b : Nat) : Int)) by push_cast; ring,
        Int.toNat_natCast]
      rw [Nat.mod_eq_of_lt (by calc (n + 1) * 2 ^ b < 2 ^ 31 := h
            _ < 2 ^ 64 := by norm_num)]
      ring

/-- C7: for every address A and geometry (s, b), the event processor computes
the set index as (A >> b) mod 2^s and the tag as A >> (b+s); the decode is a
total function of the address, so any unsigned address value is accepted with
no error condition. -/
theorem C7_address_decode (s b A : Nat) :
    which_set_index (1 <<< s) b A = (A >>> b) % 2 ^ s ∧
    which_cache_line s b A = A >>> (b + s) := by
  constructor
  · unfold which_set_index
    rw [Nat.shiftLeft_eq, one_mul, Nat.and_pow_two_sub_one_eq_mod]
  · rfl

/-- C8: the set-size getter fails its intended contract because its guard is
inverted: every non-NULL set (including a non-empty one, as the concrete
two-block set shows) yields 0, disagreeing with the spec's contract
`cache_set_size_spec`, and a NULL argument falls through to a NULL dereference
instead of being handled safely. -/
theorem C8_size_getter_guard_inverted :
    (∀ st : cache_set, cache_set_size (some st) = some 0) ∧
    cache_set_size none = none ∧
    cache_set_size (some ⟨[⟨0, 0, false⟩, ⟨1, 1, false⟩], some 0, 2, some 1⟩) ≠
      some (cache_set_size_spec
        (some ⟨[⟨0, 0, false⟩, ⟨1, 1, false⟩], some 0, 2, some 1⟩)) := by
  refine ⟨fun st => rfl, rfl, by decide⟩

/-- C1: evaluation of the code at the failing input (E=1, s=0, b=0, events
`L 0,1` then `L 1,1`).  The second event evicts, and because
`cache_set_remove_tail` never decrements `size` while `cache_set_insert_head`
increments it, the tracked size ends at 2 > E = 1 even though only one block is
resident — refuting "size stays exactly E after an eviction". -/
theorem C1_tracked_size_exceeds_E :
    csim_run_loop 1 0 0 1 (init_state 0) [⟨'L', 0, 1⟩, ⟨'L', 1, 1⟩] =
      some (.inl (⟨[⟨[⟨1, 1, false⟩], some 1, 2, none⟩], 2, 0, 2, 1, 0⟩,
        ["miss", "miss eviction"])) ∧
    ¬ ((⟨[⟨1, 1, false⟩], some 1, 2, none⟩ : cache_set).size ≤ (1 : Int)) ∧
    (⟨[⟨1, 1, false⟩], some 1, 2, none⟩ : cache_set).blocks.length = 1 := by
  decide

/-- C6: the spec scenario E=1, S=1 (s=0), b=0 with events `L 0,1`, `L 1,1`,
`L 0,1`: per-event outcomes miss, miss eviction, miss eviction, and final
totals misses=3, evictions=2, hits=0. -/
theorem C6_scenario_three_misses :
    csim_run_loop 1 0 0 1 (init_state 0)
        [⟨'L', 0, 1⟩, ⟨'L', 1, 1⟩, ⟨'L', 0, 1⟩] =
      some (.inl (⟨[⟨[⟨2, 0, false⟩], some 2, 3, none⟩], 3, 0, 3, 2, 0⟩,
        ["miss", "miss eviction", "miss eviction"])) ∧
    csim_run 0 1 0 [⟨'L', 0, 1⟩, ⟨'L', 1, 1⟩, ⟨'L', 0, 1⟩] =
      some (.summary ⟨0, 3, 2, 0, 0⟩) := by
  decide

/-- C4: counterexample.  On the event `X 0,1` (invalid operation) against a
fresh E=1 cache, the step does end in the fatal invalid-operation abort, but
only after the miss path has already inserted a block: the rejection is not the
first step of processing, contradicting "before any lookup, insertion or
eviction mutates the cache".  (`csim_step` runs `csim_miss_path` before
`csim_classify`, in the order of the source lines 352-374 vs 377-415.) -/
theorem C4_counterexample :
    csim_step 1 0 0 1 (init_state 0) ⟨'X', 0, 1⟩ = some (.invalid_op 'X') ∧
    csim_miss_path 1 'X' new_cache_set (some (new_cache_block 0 0)) 0 =
      some (⟨[⟨0, 0, false⟩], some 0, 1, none⟩, 0, true, false) ∧
    (⟨[⟨0, 0, false⟩], some 0, 1, none⟩ : cache_set) ≠ new_cache_set := by
  decide

/-- C5: evaluation of the code at the failing point.  When `new_cache_block`
returns NULL during the miss path of the event loop, the program does not
abort cleanly: in the non-evicting branch the NULL block reaches
`cache_set_insert_head`, which dereferences `block->next`, and in the evicting
branch either `new_block->dirty` (for 'L'/'S') or again `cache_set_insert_head`
dereferences NULL — undefined behaviour (`none`) on every path, with no
cleanup and no failure signalled upward. -/
theorem C5_alloc_failure_crashes_event_loop
    (E : Int) (op : Char) (set : cache_set) (de : Nat) :
    csim_miss_path E op set none de = none := by
  unfold csim_miss_path
  split
  · rfl
  · cases hdt : dirty_tail set with
    | none => rfl
    | some dt =>
      by_cases hL : op = 'L'
      · simp [hL]
      · by_cases hS : op = 'S'
        · simp [hS]
        · simp only [if_neg hL, if_neg hS]
          cases hrt : cache_set_remove_tail set with
          | none => rfl
          | some s1 => rfl

/-- C10: the final dirty-byte and dirty-eviction-byte totals are computed with
the int-typed expression `(1 << b)`, the dirty-byte product entirely in 32-bit
signed int arithmetic before the cast to unsigned long; hence for b = 31 (and
every b up to 63), or for a product exceeding INT_MAX (cnt = 2, b = 30), the
reported totals wrap instead of equalling 2^b times the count. -/
theorem C10_report_wraps_in_int32 :
    dirty_byte_report 1 31 = 2 ^ 64 - 2 ^ 31 ∧
    dirty_byte_report 1 31 ≠ 2 ^ 31 * 1 ∧
    dirty_byte_report 2 30 = 2 ^ 64 - 2 ^ 31 ∧
    dirty_byte_report 2 30 ≠ 2 ^ 30 * 2 ∧
    dirty_eviction_report 1 31 = 2 ^ 64 - 2 ^ 31 ∧
    dirty_eviction_report 1 31 ≠ 2 ^ 31 * 1 ∧
    ((List.range 33).all fun i => dirty_byte_report 1 (31 + i) != 2 ^ (31 + i))
      = true := by
  decide

/-- C3: counterexample to the claim as stated.  With geometry s=0, E=1, b=31
and the single event `S 0,1`, the run ends with exactly one resident dirty
block, yet the reported dirty-byte total is 2^64 - 2^31 (the int product
`1 * (1 << 31)` wrapped and cast), not 2^31 * 1. -/
theorem C3_counterexample :
    csim_run 0 1 31 [⟨'S', 0, 1⟩] =
      some (.summary ⟨0, 1, 0, 18446744071562067968, 0⟩) ∧
    csim_run_loop 1 0 31 1 (init_state 0) [⟨'S', 0, 1⟩] =
      some (.inl (⟨[⟨[⟨0, 0, true⟩], some 0, 1, none⟩], 1, 0, 1, 0, 0⟩,
        ["miss"])) ∧
    count_dirty [⟨[⟨0, 0, true⟩], some 0, 1, none⟩] = 1 ∧
    (18446744071562067968 : Nat) ≠ 2 ^ 31 * 1 := by
  decide

/-- C2: for every access event that hits on a tag, the matched block is
removed from its current position and reinserted at the head of its set (so
the tag is at the head immediately after the hit); the same block object —
same identity and tag — is carried across the promotion with its dirty flag
preserved (a store sets it, per the dirty policy applied between unlink and
relink); and for every access event that misses, the lookup itself performs
no mutation of the set. -/
theorem C2_hit_promotes_miss_no_mutation :
    (∀ (E : Int) (ctr : Nat) (set : cache_set) (tag : Nat) (op : Char)
       (blk : cache_block) (pre post : List cache_block),
       set_wf E ctr set →
       set.blocks.find? (fun b => b.tag == tag) = some blk →
       set.blocks = pre ++ blk :: post →
       csim_scan set tag op =
         some ({ set with
                 blocks := { blk with dirty :=
                     if op = 'S' then true else blk.dirty } :: (pre ++ post)
                 curr := some blk.id
                 tail := promoted_tail set blk pre }, true)) ∧
    (∀ (set : cache_set) (tag : Nat) (op : Char),
       set.blocks.find? (fun b => b.tag == tag) = none →
       csim_scan set tag op = some (set, false)) :=
  ⟨fun E ctr set tag op blk pre post hwf hfind hb =>
      csim_scan_found E ctr set tag op blk pre post hwf hfind hb,
   fun set tag op hfind => csim_scan_not_found set tag op hfind⟩

/-- C2 witness: a concrete two-block set; a hit on tag 7 promotes the second
block to the head (dirty flag preserved on a load), and a lookup of the
absent tag 9 leaves the set untouched. -/
theorem C2_witness :
    csim_scan ⟨[⟨0, 5, false⟩, ⟨1, 7, true⟩], some 0, 2, none⟩ 7 'L' =
      some (⟨[⟨1, 7, true⟩, ⟨0, 5, false⟩], some 1, 2, none⟩, true) ∧
    csim_scan ⟨[⟨0, 5, false⟩, ⟨1, 7, true⟩], some 0, 2, none⟩ 9 'L' =
      some (⟨[⟨0, 5, false⟩, ⟨1, 7, true⟩], some 0, 2, none⟩, false) := by
  constructor
  · have h := C2_hit_promotes_miss_no_mutation.1 2 2
      ⟨[⟨0, 5, false⟩, ⟨1, 7, true⟩], some 0, 2, none⟩ 7 'L' ⟨1, 7, true⟩
      [⟨0, 5, false⟩] []
      ⟨rfl, by decide, by decide, by decide, by decide, by decide, by decide,
        by decide⟩ (by decide) rfl
    exact h.trans (by decide)
  · exact C2_hit_promotes_miss_no_mutation.2
      ⟨[⟨0, 5, false⟩, ⟨1, 7, true⟩], some 0, 2, none⟩ 9 'L' (by decide)

/-- C9: at the start of processing every access event (equivalently, in every
state the event loop can reach), each set's `curr` pointer equals its `head`
pointer — every mutation path ends with `cache_set_insert_head`, which points
`curr` at the new head — and this guarantees that the promotion walk of the
hit path (advancing `curr` via `next`) reaches any matched block and
terminates. -/
theorem C9_curr_is_head_and_walk_terminates (E : Int) (s b : Nat)
    (evs : List access_event) (st : sim_state) (msgs : List String)
    (hE : 1 ≤ E)
    (hrun : csim_run_loop E s b (1 <<< s) (init_state s) evs =
      some (.inl (st, msgs))) :
    (∀ set0 ∈ st.cache,
      set0.curr = set0.blocks.head?.map (fun blk => blk.id)) ∧
    (∀ set0 ∈ st.cache, ∀ blk ∈ set0.blocks,
      walk_curr set0.blocks set0.curr blk.id = some (some blk.id)) := by
  obtain ⟨hwf, _, _⟩ := run_loop_wf E s b (1 <<< s) rfl hE evs (init_state s)
    (init_state_wf E s hE).1 (init_state_wf E s hE).2 st msgs hrun
  constructor
  · exact fun set0 hm => (hwf set0 hm).curr_head
  · intro set0 hm blk hb
    rw [(hwf set0 hm).curr_head]
    exact walk_curr_from_head _ _ (List.mem_map.mpr ⟨blk, hb, rfl⟩)

/-- C9 witness: the invariant instantiated after one concrete event. -/
theorem C9_witness :
    (∀ set0 ∈ (⟨[⟨[⟨0, 0, false⟩], some 0, 1, none⟩], 1, 0, 1, 0, 0⟩
        : sim_state).cache,
      set0.curr = set0.blocks.head?.map (fun blk => blk.id)) ∧
    (∀ set0 ∈ (⟨[⟨[⟨0, 0, false⟩], some 0, 1, none⟩], 1, 0, 1, 0, 0⟩
        : sim_state).cache,
      ∀ blk ∈ set0.blocks,
        walk_curr set0.blocks set0.curr blk.id = some (some blk.id)) :=
  C9_curr_is_head_and_walk_terminates 1 0 0 [⟨'L', 0, 1⟩]
    ⟨[⟨[⟨0, 0, false⟩], some 0, 1, none⟩], 1, 0, 1, 0, 0⟩ ["miss"]
    (by decide) (by decide)

/-- C3 (amended): provided the byte products fit in a 32-bit int (as the
counterexample shows they must — in particular b ≤ 30), the reported
dirty-byte total equals 2^b times the number of currently resident dirty
blocks, and the reported dirty-eviction-byte total equals 2^b times the
number of evictions whose victim block was dirty at eviction time, the
eviction count being accumulated incrementally (the victim's flag is read by
`dirty_tail` before `cache_set_remove_tail` frees it, and the program's
running counter equals the specification-side per-eviction recount). -/
theorem C3_dirty_byte_reports_exact (s : Nat) (E : Int) (b : Nat)
    (evs : List access_event) (st : sim_state) (msgs : List String)
    (hE : 1 ≤ E)
    (hrun : csim_run_loop E s b (1 <<< s) (init_state s) evs =
      some (.inl (st, msgs)))
    (h1 : count_dirty st.cache * 2 ^ b < 2 ^ 31)
    (h2 : st.dirty_eviction * 2 ^ b < 2 ^ 31) :
    csim_run s E b evs = some (.summary
      { hits := st.hit
        misses := st.miss
        evictions := st.eviction
        dirty_bytes := 2 ^ b * count_dirty st.cache
        dirty_evictions := 2 ^ b * st.dirty_eviction }) ∧
    st.dirty_eviction =
      spec_dirty_evictions E s b (1 <<< s) (init_state s) evs := by
  obtain ⟨_, _, hde⟩ := run_loop_wf E s b (1 <<< s) rfl hE evs (init_state s)
    (init_state_wf E s hE).1 (init_state_wf E s hE).2 st msgs hrun
  constructor
  · unfold csim_run
    dsimp only
    rw [hrun]
    dsimp only
    rw [dirty_byte_report_exact _ _ h1, dirty_eviction_report_exact _ _ h2]
  · simpa [init_state] using hde

/-- C3 witness: with b = 0 and one store, the report is exact. -/
theorem C3_witness :
    csim_run 0 1 0 [⟨'S', 0, 1⟩] = some (.summary
      { hits := 0
        misses := 1
        evictions := 0
        dirty_bytes := 2 ^ 0 * count_dirty [⟨[⟨0, 0, true⟩], some 0, 1, none⟩]
        dirty_evictions := 2 ^ 0 * 0 }) ∧
    (0 : Nat) = spec_dirty_evictions 1 0 0 1 (init_state 0) [⟨'S', 0, 1⟩] :=
  C3_dirty_byte_reports_exact 0 1 0 [⟨'S', 0, 1⟩]
    ⟨[⟨[⟨0, 0, true⟩], some 0, 1, none⟩], 1, 0, 1, 0, 0⟩ ["miss"]
    (by decide) (by decide) (by decide) (by decide)

/-- C4 (amended): an event whose operation character is neither 'L' nor 'S'
is detected only during outcome classification — after the event's own
lookup/insert/evict has already mutated the cache, as `C4_counterexample`
shows — but the error is fatal exactly as claimed: the run stops at that
event, the offending character is reported, the remaining events are never
processed, and no summary is produced. -/
theorem C4_invalid_op_fatal (s : Nat) (E : Int) (b : Nat)
    (evs1 : List access_event) (ev : access_event) (evs2 : List access_event)
    (st : sim_state) (msgs : List String) (hE : 1 ≤ E)
    (hpre : csim_run_loop E s b (1 <<< s) (init_state s) evs1 =
      some (.inl (st, msgs)))
    (hop : ¬ (ev.op = 'L' ∨ ev.op = 'S')) :
    csim_run s E b (evs1 ++ ev :: evs2) = some (.invalid_op ev.op) := by
  obtain ⟨hwf, hlen, _⟩ := run_loop_wf E s b (1 <<< s) rfl hE evs1
    (init_state s) (init_state_wf E s hE).1 (init_state_wf E s hE).2
    st msgs hpre
  have hstep := (csim_step_spec E s b (1 <<< s) st ev hE hwf hlen rfl).1 hop
  have happ := run_loop_append E s b (1 <<< s) evs1 (init_state s) st msgs
    (ev :: evs2) hpre
  unfold csim_run
  dsimp only
  rw [happ]
  simp only [csim_run_loop]
  rw [hstep]

/-- C4 witness: an invalid op after a valid prefix aborts the run with the
offending character, ignoring the rest of the trace. -/
theorem C4_witness :
    csim_run 0 1 0 [⟨'X', 0, 1⟩, ⟨'L', 0, 1⟩] = some (.invalid_op 'X') :=
  C4_invalid_op_fatal 0 1 0 [] ⟨'X', 0, 1⟩ [⟨'L', 0, 1⟩] (init_state 0) []
    (by decide) rfl (by decide)

end Csim
